import Mathlib

/-!
Verification development for the CleanList application (src/cleanlist.py).

The development shallowly embeds the data-processing core of the program:

* pandas DataFrames become column-major tables (`DataFrame`), with `none`
  cells modelling NaN / null values;
* `load_and_validate_data`, `process_data` and `verify_emails` become the
  Lean functions `loadAndValidateData`, `processData` and `verifyEmails`;
* the per-row network call of `verify_emails` is abstracted by an oracle
  `Cell → HttpOutcome` giving, for each email cell, either a raised
  exception (`HttpOutcome.exn`, covering transport failures and timeouts)
  or an HTTP response with a status code and an optional parsed JSON body;
* the column-mapping widget logic of `render_column_mapping` and the
  template loading of `render_sidebar` become a small operation language
  (`MapOp`) over association-list mappings;
* the processing branch of `main` becomes `startProcessing` / `stepStart`
  over a session state machine.

Mutable state (the in-place mutation of the callers frame by
`verify_emails`, the Streamlit session state) is made explicit: stateful
functions return the new state alongside their result.
-/

/-- A value stored in one cell of a frame; `none` models NaN / null. -/
abbrev Cell := Option String

/-- A column-major pandas DataFrame: column labels with their value lists.
The column order is the display and export order. -/
structure DataFrame where
  cols : List (String × List Cell)
deriving DecidableEq

/-- The column labels of a frame, in order. -/
def DataFrame.names (df : DataFrame) : List String :=
  df.cols.map (fun c => c.1)

/-- Column lookup, as in `df[name]`: the first column with the given label. -/
def DataFrame.getCol (df : DataFrame) (name : String) : Option (List Cell) :=
  (df.cols.find? (fun c => c.1 == name)).map (fun c => c.2)

/-- The number of rows (the length of the index). For a frame with at least
one column this is the length of its first column. -/
def DataFrame.nRows (df : DataFrame) : Nat :=
  match df.cols with
  | [] => 0
  | c :: _ => c.2.length

/-- Well-formedness: the frame is rectangular (pandas frames always are). -/
def DataFrame.WF (df : DataFrame) : Prop :=
  ∀ c ∈ df.cols, c.2.length = df.nRows

instance (df : DataFrame) : Decidable df.WF :=
  inferInstanceAs (Decidable (∀ c ∈ df.cols, c.2.length = df.nRows))

/-- Replace the values of every column labelled `name` (this is how pandas
column assignment treats duplicate labels). -/
def setEvery (cols : List (String × List Cell)) (name : String) (vals : List Cell) :
    List (String × List Cell) :=
  cols.map (fun c => if c.1 = name then (c.1, vals) else c)

/-- Column assignment on the raw column list: replace the column in place
when the label exists, otherwise append it at the end. -/
def putCol (cols : List (String × List Cell)) (name : String) (vals : List Cell) :
    List (String × List Cell) :=
  if cols.any (fun c => c.1 == name) then setEvery cols name vals
  else cols ++ [(name, vals)]

/-- List-like column assignment `df[name] = vals`, with the pandas index
semantics: if the frame has an empty index and the assigned values are
nonempty, the frame is first reindexed to the new values (existing columns
are filled with NaN); otherwise the values are aligned positionally to the
existing index. -/
def DataFrame.setCol (df : DataFrame) (name : String) (vals : List Cell) : DataFrame :=
  if df.nRows = 0 ∧ vals ≠ [] then
    ⟨putCol (df.cols.map (fun c => (c.1, List.replicate vals.length (none : Cell)))) name vals⟩
  else
    ⟨putCol df.cols name ((List.range df.nRows).map (fun i => vals.getD i none))⟩

/-- Scalar assignment `df[name] = None`: broadcast null over the current
index length. -/
def DataFrame.setColNone (df : DataFrame) (name : String) : DataFrame :=
  ⟨putCol df.cols name (List.replicate df.nRows (none : Cell))⟩

/-- A Python dict from target field to source column, as used for
`st.session_state.mappings`: an association list whose values may be None. -/
abbrev Mapping := List (String × Option String)

/-- `mappings.get(target)`: `none` both for a missing key and for a key
stored with value None, exactly as the Python code observes it. -/
def mget : Mapping → String → Option String
  | [], _ => none
  | e :: rest, t => if e.1 = t then e.2 else mget rest t

/-- `mappings[target] = v`: replace the value of an existing key, or insert
the key at the end. -/
def mset : Mapping → String → Option String → Mapping
  | [], t, v => [(t, v)]
  | e :: rest, t, v => if e.1 = t then (e.1, v) :: rest else e :: mset rest t v

/-- Truthiness of a mapping value, as tested by `if source:` in
`process_data`: set and not the empty string. -/
def truthy : Option String → Bool
  | none => false
  | some s => s != ""

/-- One loop iteration of `process_data` (src/cleanlist.py lines 34-36):
`source = mappings.get(target); processed[target] = df[source] if source
else None`. A truthy source column that is absent from `df` raises a
`KeyError`, modelled as the error case. -/
def processStep (df : DataFrame) (m : Mapping) (acc : DataFrame) (target : String) :
    Except String DataFrame :=
  match mget m target with
  | some source =>
    if source = "" then .ok (acc.setColNone target)
    else
      match df.getCol source with
      | some vals => .ok (acc.setCol target vals)
      | none => .error ("KeyError: " ++ source)
  | none => .ok (acc.setColNone target)

/-- The loop of `process_data` over the target columns; an exception from
any iteration aborts the whole call. -/
def processAux (df : DataFrame) (m : Mapping) : List String → DataFrame → Except String DataFrame
  | [], acc => .ok acc
  | t :: rest, acc =>
    match processStep df m acc t with
    | .ok acc2 => processAux df m rest acc2
    | .error e => .error e

/-- Embeds `process_data` (src/cleanlist.py lines 31-37): build a fresh
frame and assign one column per target field. -/
def processData (df : DataFrame) (m : Mapping) (targets : List String) :
    Except String DataFrame :=
  processAux df m targets ⟨[]⟩

/-- Outcome of one `requests.post` call to the verification service:
either a raised exception (transport failure, timeout), or a response
carrying an HTTP status code and, when the body parses as a JSON object,
its string entries (`none` body means `res.json()` raises). -/
inductive HttpOutcome where
  | exn : HttpOutcome
  | response (status : Nat) (body : Option (List (String × String))) : HttpOutcome
deriving DecidableEq

/-- The per-row classification of `verify_emails` (src/cleanlist.py lines
46-54): `res.json().get(\x22result\x22, \x22invalid\x22)` inside a `try`
whose handler appends `error`. The HTTP status code is never consulted. -/
def classifyResponse : HttpOutcome → String
  | .exn => "error"
  | .response _ none => "error"
  | .response _ (some obj) =>
    ((obj.find? (fun p => p.1 == "result")).map (fun p => p.2)).getD "invalid"

/-- Keep the values whose mask position is true (boolean-mask row
selection). -/
def applyMask : List Bool → List Cell → List Cell
  | b :: ms, v :: vs => if b then v :: applyMask ms vs else applyMask ms vs
  | _, _ => []

/-- Boolean-mask row selection on a whole frame, `df[mask]`. -/
def DataFrame.filterByMask (df : DataFrame) (mask : List Bool) : DataFrame :=
  ⟨df.cols.map (fun c => (c.1, applyMask mask c.2))⟩

/-- The final filter of `verify_emails` (line 57):
`df[df[\x22Email Status\x22] == \x22valid\x22]`. A null status compares
unequal to `valid`, as NaN does in pandas. -/
def filterValid (df : DataFrame) : DataFrame :=
  df.filterByMask (((df.getCol "Email Status").getD []).map (fun v => v == some "valid"))

/-- Embeds `verify_emails` (src/cleanlist.py lines 39-57). The first
component of the result is the callers frame after the in-place
annotation `df[\x22Email Status\x22] = status_col`; the second is the
returned filtered frame. When the `Email` column is absent the input is
returned unchanged. -/
def verifyEmails (df : DataFrame) (oracle : Cell → HttpOutcome) (_apiKey : String) :
    DataFrame × DataFrame :=
  if "Email" ∈ df.names then
    let statusVals :=
      ((df.getCol "Email").getD []).map (fun e => (some (classifyResponse (oracle e)) : Cell))
    let annotated := df.setCol "Email Status" statusVals
    (annotated, filterValid annotated)
  else (df, df)

/-- A row observed as an association list of label/cell pairs, read off a
column-major frame. -/
abbrev Row := List (String × Cell)

/-- The first row of a frame. -/
def DataFrame.rowAt0 (df : DataFrame) : Row :=
  df.cols.map (fun c => (c.1, c.2.headD none))

/-- Drop the first row of every column. -/
def DataFrame.tailRows (df : DataFrame) : DataFrame :=
  ⟨df.cols.map (fun c => (c.1, c.2.tail))⟩

/-- The first `n` rows of a frame, built head-first. -/
def rowsAux : Nat → DataFrame → List Row
  | 0, _ => []
  | n + 1, df => df.rowAt0 :: rowsAux n df.tailRows

/-- The rows of a frame, in order. -/
def DataFrame.rowsL (df : DataFrame) : List Row :=
  rowsAux df.nRows df

/-- The cell of a row under a label (first occurrence), null when absent. -/
def rowGet (r : Row) (name : String) : Cell :=
  ((r.find? (fun e => e.1 == name)).map (fun e => e.2)).getD none

/-- Split a character list at every occurrence of a delimiter. -/
def splitChar (d : Char) : List Char → List (List Char)
  | [] => [[]]
  | c :: rest =>
    let r := splitChar d rest
    if c = d then [] :: r
    else
      match r with
      | h :: t => (c :: h) :: t
      | [] => [[c]]

/-- The `utf-8-sig` decoding step of `load_and_validate_data` (line 26):
a leading byte-order mark is removed, any other content is kept. -/
def stripBom : List Char → List Char
  | [] => []
  | c :: rest => if c = Char.ofNat 0xFEFF then rest else c :: rest

/-- The nonempty lines of the decoded content. -/
def contentLines (content : List Char) : List (List Char) :=
  (splitChar '\n' content).filter (fun l => !l.isEmpty)

/-- A delimiter candidate is accepted when it occurs in the first line and
occurs equally often in every line: a contract-level model of the
`csv.Sniffer` detection that pandas runs for `sep=None`. -/
def consistentDelim (lines : List (List Char)) (d : Char) : Bool :=
  match lines with
  | [] => false
  | l :: rest => (l.count d != 0) && rest.all (fun l2 => l2.count d == l.count d)

/-- Delimiter auto-detection among comma, tab and semicolon (the
`csv.Sniffer` preference order restricted to the delimiters the spec
names). -/
def sniffDelimiter (content : List Char) : Option Char :=
  ([',', '\t', ';']).find? (consistentDelim (contentLines content))

/-- The cell of a parsed data row under column index `j`: missing fields
and empty fields load as NaN, as pandas does. -/
def cellValue (r : List (List Char)) (j : Nat) : Cell :=
  match r.get? j with
  | none => none
  | some v => if v.isEmpty then none else some (String.mk v)

/-- Parse the delimited lines into a frame: first line is the header, a
data row longer than the header is a parse error (the python engine of
`pd.read_csv` raises there), shorter rows are padded with NaN. -/
def parseCsv (d : Char) (lines : List (List Char)) : Except String DataFrame :=
  match lines with
  | [] => .error "No columns to parse from file"
  | header :: body =>
    let hs := splitChar d header
    let rows := body.map (splitChar d)
    if rows.all (fun r => r.length ≤ hs.length) then
      .ok ⟨hs.mapIdx (fun j nm => (String.mk nm, rows.map (fun r => cellValue r j)))⟩
    else .error "Expected fewer fields than were seen in a data line"

/-- Embeds `load_and_validate_data` (src/cleanlist.py lines 23-29): decode
tolerating a byte-order mark, let pandas sniff the delimiter and parse;
every failure is wrapped as `File Error: {cause}` (the `ValueError` that
the spec calls `LoadError`). -/
def loadAndValidateData (raw : String) : Except String DataFrame :=
  match sniffDelimiter (stripBom raw.toList) with
  | none => .error ("File Error: " ++ "Could not determine delimiter")
  | some d =>
    match parseCsv d (contentLines (stripBom raw.toList)) with
    | .ok df => .ok df
    | .error cause => .error ("File Error: " ++ cause)

/-- The ignore sentinel of the mapping widget. -/
def ignoreSentinel : String := "--- Ignore ---"

/-- `used_sources` (src/cleanlist.py line 239): the truthy mapping values
other than the ignore sentinel. -/
def usedSources (m : Mapping) : List String :=
  (m.filterMap (fun e => e.2)).filter (fun s => s != "" && s != ignoreSentinel)

/-- One selectbox interaction of `render_column_mapping` (lines 258-274)
for one target field: the selectable options are the ignore sentinel plus
the source columns not used by another field, and the stored mapping
becomes the selection, or None for the sentinel. A value outside the
options cannot be returned by the widget and leaves the mapping unchanged. -/
def assignStep (cols : List String) (m : Mapping) (target sel : String) : Mapping :=
  if sel ∈ ignoreSentinel :: cols.filter
      (fun c => decide (c ∉ usedSources m) || (mget m target == some c)) then
    if sel = ignoreSentinel then mset m target none else mset m target (some sel)
  else m

/-- The mapping operations of the user interface: a selectbox assignment,
the clear button (`mappings[target] = None`, line 282), and loading a
stored template (`st.session_state.mappings = tpl_data`, line 164). -/
inductive MapOp where
  | assign (target sel : String) : MapOp
  | clear (target : String) : MapOp
  | loadTemplate (tpl : Mapping) : MapOp
deriving DecidableEq

/-- Apply one mapping operation. Loading a template replaces the mapping
verbatim, with no re-validation. -/
def applyOp (cols : List String) (m : Mapping) : MapOp → Mapping
  | .assign target sel => assignStep cols m target sel
  | .clear target => mset m target none
  | .loadTemplate tpl => tpl

/-- Apply a sequence of mapping operations. -/
def applyOps (cols : List String) (ops : List MapOp) (m : Mapping) : Mapping :=
  ops.foldl (applyOp cols) m

/-- True when the operation sequence contains no template load. -/
def noTemplateLoad (ops : List MapOp) : Bool :=
  ops.all (fun op => match op with | .loadTemplate _ => false | _ => true)

/-- The uniqueness invariant of the mapping: no source column other than
the ignore sentinel is the value of two distinct target fields. -/
def MappingInv (m : Mapping) : Prop :=
  ∀ t1 t2 s, t1 ≠ t2 → mget m t1 = some s → mget m t2 = some s → s = ignoreSentinel

/-- Output filename derivation (src/cleanlist.py line 352):
`new_filename.rsplit(\x22.\x22, 1)[0] + \x22_clean.csv\x22`. -/
def cleanFilename (n : String) : String :=
  let parts := splitChar '.' n.toList
  if parts.length ≤ 1 then n ++ "_clean.csv"
  else String.mk (List.intercalate ['.'] parts.dropLast) ++ "_clean.csv"

/-- The start-processing button handler (src/cleanlist.py lines 344-353).
Line 342 rebinds the name `verify_emails` to the checkbox boolean inside
`main`, so the call `verify_emails(processed_df, api_key)` at line 347
invokes a boolean and raises `TypeError: not callable` whenever the API
key is nonempty and the checkbox is set; the validator function itself is
unreachable from this handler. -/
def startProcessing (df : DataFrame) (m : Mapping) (targets : List String)
    (apiKey : String) (verifyFlag : Bool) (newFilename : String) :
    Except String (DataFrame × String) :=
  match processData df m targets with
  | .error e => .error e
  | .ok processed =>
    if apiKey ≠ "" ∧ verifyFlag = true then
      .error "TypeError: bool object is not callable"
    else
      .ok (processed, cleanFilename newFilename)

/-- The session states of the pipeline: Empty, Loaded, Mapped, Processed. -/
inductive SessionState where
  | emptyS : SessionState
  | loaded (df : DataFrame) : SessionState
  | mapped (df : DataFrame) (m : Mapping) : SessionState
  | processed (df : DataFrame) (m : Mapping) (result : DataFrame) (filename : String) :
      SessionState
deriving DecidableEq

/-- The start action on the session: on success the state becomes
Processed with the result retained; an exception is caught by the handler
at src/cleanlist.py line 374, the state stays as it was and the error
message is surfaced. -/
def stepStart (s : SessionState) (targets : List String) (apiKey : String)
    (verifyFlag : Bool) (fname : String) : SessionState × Option String :=
  match s with
  | .mapped df m =>
    match startProcessing df m targets apiKey verifyFlag fname with
    | .ok r => (.processed df m r.1 r.2, none)
    | .error e => (.mapped df m, some e)
  | s2 => (s2, none)

/-- Render one cell for export: NaN becomes the empty field. -/
def renderCell : Cell → String
  | none => ""
  | some s => s

/-- The export artifact of `processed_df.to_csv(index=False)` (line 363)
as structured lines: the header row of column labels followed by one
rendered line per row. -/
def toCsvLines (df : DataFrame) : List (List String) :=
  df.names :: df.rowsL.map (fun r => r.map (fun e => renderCell e.2))

/-- The comma-delimited text of the export artifact. -/
def toCsvString (df : DataFrame) : String :=
  String.intercalate "\n" ((toCsvLines df).map (fun l => String.intercalate "," l))

/-- The number of true entries of a mask. -/
def countTrue : List Bool → Nat
  | [] => 0
  | b :: ms => if b then countTrue ms + 1 else countTrue ms

/-- Keep the rows whose mask position is true (row-level view of
boolean-mask selection). -/
def filterMask : List Bool → List Row → List Row
  | b :: ms, r :: rs => if b then r :: filterMask ms rs else filterMask ms rs
  | _, _ => []

/-- A labelled column exists exactly when its name occurs in the label list. -/
theorem any_key_eq_mem (cols : List (String × List Cell)) (name : String) :
    cols.any (fun c => c.1 == name) = true ↔ name ∈ DataFrame.names ⟨cols⟩ := by
  simp only [List.any_eq_true, beq_iff_eq, DataFrame.names, List.mem_map]

/-- The labels of a cons frame. -/
theorem names_cons (c : String × List Cell) (rest : List (String × List Cell)) :
    DataFrame.names ⟨c :: rest⟩ = c.1 :: DataFrame.names ⟨rest⟩ := rfl

/-- Lookup on an empty frame. -/
theorem getCol_nil (name : String) : DataFrame.getCol ⟨[]⟩ name = none := rfl

/-- Lookup on a cons frame. -/
theorem getCol_cons (c : String × List Cell) (rest : List (String × List Cell))
    (name : String) :
    DataFrame.getCol ⟨c :: rest⟩ name
      = if c.1 = name then some c.2 else DataFrame.getCol ⟨rest⟩ name := by
  simp only [DataFrame.getCol, List.find?]
  cases h : (c.1 == name)
  · simp_all
  · simp_all

/-- Unfolding of `setEvery` on a cons frame. -/
theorem setEvery_cons (c : String × List Cell) (rest : List (String × List Cell))
    (name : String) (vals : List Cell) :
    setEvery (c :: rest) name vals
      = (if c.1 = name then (c.1, vals) else c) :: setEvery rest name vals := rfl

/-- Replacing the values of a column keeps the labels. -/
theorem names_setEvery (cols : List (String × List Cell)) (name : String) (vals : List Cell) :
    DataFrame.names ⟨setEvery cols name vals⟩ = DataFrame.names ⟨cols⟩ := by
  induction cols with
  | nil => rfl
  | cons c rest ih =>
    rw [setEvery_cons, names_cons, names_cons, ih]
    split_ifs <;> rfl

/-- Mapping the value lists of a frame keeps the labels. -/
theorem names_map_snd (cols : List (String × List Cell)) (f : List Cell → List Cell) :
    DataFrame.names ⟨cols.map (fun c => (c.1, f c.2))⟩ = DataFrame.names ⟨cols⟩ := by
  simp [DataFrame.names, List.map_map]

/-- Column lookup after mapping every value list. -/
theorem getCol_map_snd (cols : List (String × List Cell)) (f : List Cell → List Cell)
    (name : String) :
    DataFrame.getCol ⟨cols.map (fun c => (c.1, f c.2))⟩ name
      = (DataFrame.getCol ⟨cols⟩ name).map f := by
  induction cols with
  | nil => rfl
  | cons c rest ih =>
    rw [List.map_cons, getCol_cons, getCol_cons]
    split_ifs with hc
    · rfl
    · exact ih

/-- Looking up the replaced column finds the new values. -/
theorem getCol_setEvery_self (cols : List (String × List Cell)) (name : String)
    (vals : List Cell) (h : name ∈ DataFrame.names ⟨cols⟩) :
    DataFrame.getCol ⟨setEvery cols name vals⟩ name = some vals := by
  induction cols with
  | nil => simp [DataFrame.names] at h
  | cons c rest ih =>
    rw [setEvery_cons]
    by_cases hc : c.1 = name
    · rw [if_pos hc, getCol_cons, if_pos hc]
    · rw [if_neg hc, getCol_cons, if_neg hc]
      rw [names_cons] at h
      rcases List.mem_cons.mp h with h | h
      · exact absurd h.symm hc
      · exact ih h

/-- Looking up a column appended behind all existing labels. -/
theorem getCol_append_single (cols : List (String × List Cell)) (name : String)
    (vals : List Cell) :
    DataFrame.getCol ⟨cols ++ [(name, vals)]⟩ name
      = some ((DataFrame.getCol ⟨cols⟩ name).getD vals) := by
  induction cols with
  | nil => simp [getCol_cons, getCol_nil]
  | cons c rest ih =>
    rw [List.cons_append, getCol_cons, getCol_cons]
    split_ifs with hc
    · rfl
    · rw [ih]

/-- Replacing one column leaves lookups of other labels unchanged. -/
theorem getCol_setEvery_ne (cols : List (String × List Cell)) (name : String)
    (vals : List Cell) (name2 : String) (h : name2 ≠ name) :
    DataFrame.getCol ⟨setEvery cols name vals⟩ name2 = DataFrame.getCol ⟨cols⟩ name2 := by
  induction cols with
  | nil => rfl
  | cons c rest ih =>
    rw [setEvery_cons]
    by_cases hc : c.1 = name
    · have hne2 : ¬ c.1 = name2 := fun hx => h (hx.symm.trans hc)
      rw [if_pos hc, getCol_cons, getCol_cons, if_neg hne2, if_neg hne2, ih]
    · rw [if_neg hc, getCol_cons, getCol_cons, ih]

/-- Appending a new column leaves lookups of other labels unchanged. -/
theorem getCol_append_ne (cols : List (String × List Cell)) (name : String)
    (vals : List Cell) (name2 : String) (h : name2 ≠ name) :
    DataFrame.getCol ⟨cols ++ [(name, vals)]⟩ name2 = DataFrame.getCol ⟨cols⟩ name2 := by
  induction cols with
  | nil =>
    simp only [List.nil_append, getCol_cons, getCol_nil]
    rw [if_neg (fun hx => h hx.symm)]
  | cons c rest ih =>
    rw [List.cons_append, getCol_cons, getCol_cons, ih]

/-- Column assignment stores the assigned values under the label. -/
theorem getCol_putCol_self (cols : List (String × List Cell)) (name : String)
    (vals : List Cell) :
    DataFrame.getCol ⟨putCol cols name vals⟩ name = some vals := by
  unfold putCol
  split_ifs with hmem
  · exact getCol_setEvery_self _ _ _ ((any_key_eq_mem _ _).mp hmem)
  · rw [getCol_append_single]
    have hnone : DataFrame.getCol ⟨cols⟩ name = none := by
      unfold DataFrame.getCol
      rw [List.find?_eq_none.mpr]
      · rfl
      · intro c hc
        simp only [List.any_eq_true, not_exists, not_and] at hmem
        simpa using hmem c hc
    simp [hnone]

/-- Column assignment leaves other labels unchanged. -/
theorem getCol_putCol_ne (cols : List (String × List Cell)) (name : String)
    (vals : List Cell) (name2 : String) (h : name2 ≠ name) :
    DataFrame.getCol ⟨putCol cols name vals⟩ name2 = DataFrame.getCol ⟨cols⟩ name2 := by
  unfold putCol
  split_ifs
  · exact getCol_setEvery_ne _ _ _ _ h
  · exact getCol_append_ne _ _ _ _ h

/-- The labels after a column assignment. -/
theorem names_putCol (cols : List (String × List Cell)) (name : String) (vals : List Cell) :
    DataFrame.names ⟨putCol cols name vals⟩ =
      if name ∈ DataFrame.names ⟨cols⟩ then DataFrame.names ⟨cols⟩
      else DataFrame.names ⟨cols⟩ ++ [name] := by
  by_cases hmem : name ∈ DataFrame.names ⟨cols⟩
  · rw [if_pos hmem]
    unfold putCol
    rw [if_pos ((any_key_eq_mem _ _).mpr hmem)]
    exact names_setEvery _ _ _
  · rw [if_neg hmem]
    unfold putCol
    rw [if_neg (fun hx => hmem ((any_key_eq_mem _ _).mp hx))]
    simp [DataFrame.names]

/-- Positional alignment of a list to an index of its own length is the
identity. -/
theorem range_map_getD (l : List Cell) :
    (List.range l.length).map (fun i => l.getD i none) = l := by
  induction l with
  | nil => rfl
  | cons v vs ih =>
    rw [List.length_cons, List.range_succ_eq_map, List.map_cons, List.map_map]
    simp only [List.getD_cons_zero]
    have hfun : ((fun i => (v :: vs).getD i none) ∘ Nat.succ) = fun i => vs.getD i none := by
      funext i
      simp
    rw [hfun, ih]

/-- Assigning a column of the right length keeps the row count. -/
theorem nRows_putCol (cols : List (String × List Cell)) (name : String) (vals : List Cell)
    (h : vals.length = DataFrame.nRows ⟨cols⟩) :
    DataFrame.nRows ⟨putCol cols name vals⟩ = DataFrame.nRows ⟨cols⟩ := by
  unfold putCol
  cases cols with
  | nil =>
    simp only [List.any_nil, Bool.false_eq_true, if_false, List.nil_append]
    simpa [DataFrame.nRows] using h
  | cons c rest =>
    split_ifs with hmem
    · rw [setEvery_cons]
      by_cases hc : c.1 = name
      · rw [if_pos hc]
        simpa [DataFrame.nRows] using h
      · rw [if_neg hc]
        rfl
    · rfl

/-- Assigning a column of the right length keeps rectangularity. -/
theorem WF_putCol (cols : List (String × List Cell)) (name : String) (vals : List Cell)
    (h : vals.length = DataFrame.nRows ⟨cols⟩) (hWF : DataFrame.WF ⟨cols⟩) :
    DataFrame.WF ⟨putCol cols name vals⟩ := by
  intro c hc
  rw [show (DataFrame.nRows ⟨putCol cols name vals⟩) = DataFrame.nRows ⟨cols⟩ from
    nRows_putCol _ _ _ h]
  unfold putCol at hc
  split_ifs at hc with hmem
  · simp only [setEvery, List.mem_map] at hc
    obtain ⟨c0, hc0, hce⟩ := hc
    by_cases hx : c0.1 = name
    · rw [if_pos hx] at hce
      rw [← hce]
      exact h
    · rw [if_neg hx] at hce
      rw [← hce]
      exact hWF c0 hc0
  · rcases List.mem_append.mp hc with h1 | h1
    · exact hWF c h1
    · rw [List.mem_singleton.mp h1]
      exact h

/-- With values of exactly the index length, list assignment is plain column
replacement. -/
theorem setCol_eq_putCol (df : DataFrame) (name : String) (vals : List Cell)
    (h : vals.length = df.nRows) :
    df.setCol name vals = ⟨putCol df.cols name vals⟩ := by
  unfold DataFrame.setCol
  split_ifs with h2
  · exact absurd (List.length_eq_zero.mp (h.trans h2.1)) h2.2
  · rw [show ((List.range df.nRows).map (fun i => vals.getD i none)) = vals from by
      rw [← h]
      exact range_map_getD vals]

/-- Row count after a scalar null assignment. -/
theorem nRows_setColNone (df : DataFrame) (name : String) :
    (df.setColNone name).nRows = df.nRows := by
  unfold DataFrame.setColNone
  exact nRows_putCol _ _ _ (by simp)

/-- Rectangularity after a scalar null assignment. -/
theorem WF_setColNone (df : DataFrame) (name : String) (hWF : df.WF) :
    (df.setColNone name).WF := by
  unfold DataFrame.setColNone
  exact WF_putCol _ _ _ (by simp) hWF

/-- Lookup of the column set by a scalar null assignment. -/
theorem getCol_setColNone_self (df : DataFrame) (name : String) :
    (df.setColNone name).getCol name = some (List.replicate df.nRows (none : Cell)) :=
  getCol_putCol_self _ _ _

/-- Lookup of other columns after a scalar null assignment. -/
theorem getCol_setColNone_ne (df : DataFrame) (name name2 : String) (h : name2 ≠ name) :
    (df.setColNone name).getCol name2 = df.getCol name2 :=
  getCol_putCol_ne _ _ _ _ h

/-- Labels after a scalar null assignment. -/
theorem names_setColNone (df : DataFrame) (name : String) :
    (df.setColNone name).names =
      if name ∈ df.names then df.names else df.names ++ [name] :=
  names_putCol _ _ _

/-- A rectangular column has the length given by `getCol`. -/
theorem getCol_length (df : DataFrame) (name : String) (vals : List Cell) (hdf : df.WF)
    (h : df.getCol name = some vals) : vals.length = df.nRows := by
  unfold DataFrame.getCol at h
  cases hf : df.cols.find? (fun c => c.1 == name) with
  | none => rw [hf] at h; simp at h
  | some c =>
    rw [hf] at h
    injection h with h
    rw [← h]
    exact hdf c (List.mem_of_find?_eq_some hf)

/-- A label in the frame has a column. -/
theorem getCol_isSome_of_mem (df : DataFrame) (name : String) (h : name ∈ df.names) :
    ∃ vals, df.getCol name = some vals := by
  simp only [DataFrame.names, List.mem_map] at h
  obtain ⟨c, hc, he⟩ := h
  have hsome : (df.cols.find? (fun c => c.1 == name)).isSome :=
    List.find?_isSome.mpr ⟨c, hc, by simp [he]⟩
  cases hf : df.cols.find? (fun c => c.1 == name) with
  | none => rw [hf] at hsome; simp at hsome
  | some c2 =>
    refine ⟨c2.2, ?_⟩
    unfold DataFrame.getCol
    rw [hf]
    rfl

/-- Reindexing an empty-index frame to new values: every column becomes
null-filled at the new length, the result is rectangular with that length. -/
theorem reindex_WF_nRows (cols : List (String × List Cell)) (t : String) (vals : List Cell) :
    DataFrame.WF ⟨putCol (cols.map (fun c => (c.1, List.replicate vals.length (none : Cell)))) t vals⟩
    ∧ DataFrame.nRows ⟨putCol (cols.map (fun c => (c.1, List.replicate vals.length (none : Cell)))) t vals⟩ = vals.length := by
  cases cols with
  | nil =>
    have hput : putCol (List.map (fun c : String × List Cell =>
          (c.1, List.replicate vals.length (none : Cell))) []) t vals
        = [(t, vals)] := rfl
    rw [hput]
    constructor
    · intro c hc
      rw [List.mem_singleton.mp hc]
      rfl
    · rfl
  | cons c rest =>
    have h1 : DataFrame.nRows ⟨((c :: rest).map (fun c => (c.1, List.replicate vals.length (none : Cell))))⟩ = vals.length := by
      simp [DataFrame.nRows]
    have h2 : DataFrame.WF ⟨((c :: rest).map (fun c => (c.1, List.replicate vals.length (none : Cell))))⟩ := by
      intro c2 hc2
      rw [h1]
      simp only [List.mem_map] at hc2
      obtain ⟨c0, _, he⟩ := hc2
      rw [← he]
      simp
    refine ⟨WF_putCol _ _ _ h1.symm h2, ?_⟩
    rw [nRows_putCol _ _ _ h1.symm, h1]

/-- Row count after a list column assignment. -/
theorem setCol_nRows (acc : DataFrame) (t : String) (vals : List Cell) :
    (acc.setCol t vals).nRows = if acc.nRows = 0 ∧ vals ≠ [] then vals.length else acc.nRows := by
  by_cases h : acc.nRows = 0 ∧ vals ≠ []
  · rw [if_pos h]
    unfold DataFrame.setCol
    rw [if_pos h]
    exact (reindex_WF_nRows acc.cols t vals).2
  · rw [if_neg h]
    unfold DataFrame.setCol
    rw [if_neg h]
    exact nRows_putCol _ _ _ (by simp)

/-- Rectangularity after a list column assignment. -/
theorem setCol_WF (acc : DataFrame) (t : String) (vals : List Cell) (hacc : acc.WF) :
    (acc.setCol t vals).WF := by
  by_cases h : acc.nRows = 0 ∧ vals ≠ []
  · unfold DataFrame.setCol
    rw [if_pos h]
    exact (reindex_WF_nRows acc.cols t vals).1
  · unfold DataFrame.setCol
    rw [if_neg h]
    exact WF_putCol _ _ _ (by simp) hacc

/-- Labels after a list column assignment. -/
theorem setCol_names (acc : DataFrame) (t : String) (vals : List Cell) :
    (acc.setCol t vals).names = if t ∈ acc.names then acc.names else acc.names ++ [t] := by
  by_cases h : acc.nRows = 0 ∧ vals ≠ []
  · unfold DataFrame.setCol
    rw [if_pos h, names_putCol]
    have hn : DataFrame.names ⟨List.map (fun c => (c.1, List.replicate vals.length (none : Cell))) acc.cols⟩
        = acc.names := by
      simp [DataFrame.names, List.map_map]
    rw [hn]
  · unfold DataFrame.setCol
    rw [if_neg h, names_putCol]

/-- Lookup of the assigned column. -/
theorem setCol_getCol_self (acc : DataFrame) (t : String) (vals : List Cell) :
    (acc.setCol t vals).getCol t
      = some (if acc.nRows = 0 ∧ vals ≠ [] then vals
          else (List.range acc.nRows).map (fun i => vals.getD i none)) := by
  by_cases h : acc.nRows = 0 ∧ vals ≠ []
  · unfold DataFrame.setCol
    rw [if_pos h, if_pos h]
    exact getCol_putCol_self _ _ _
  · unfold DataFrame.setCol
    rw [if_neg h, if_neg h]
    exact getCol_putCol_self _ _ _

/-- Lookup of the other columns after a list column assignment. -/
theorem setCol_getCol_ne (acc : DataFrame) (t : String) (vals : List Cell) (t2 : String)
    (h2 : t2 ≠ t) :
    (acc.setCol t vals).getCol t2
      = if acc.nRows = 0 ∧ vals ≠ []
        then (acc.getCol t2).map (fun _ => List.replicate vals.length (none : Cell))
        else acc.getCol t2 := by
  by_cases h : acc.nRows = 0 ∧ vals ≠ []
  · unfold DataFrame.setCol
    rw [if_pos h, if_pos h, getCol_putCol_ne _ _ _ _ h2]
    exact getCol_map_snd acc.cols (fun _ => List.replicate vals.length none) t2
  · unfold DataFrame.setCol
    rw [if_neg h, if_neg h]
    exact getCol_putCol_ne _ _ _ _ h2

/-- A non-truthy mapping value makes the projection step a scalar null
assignment. -/
theorem processStep_eq_untruthy (df : DataFrame) (m : Mapping) (acc : DataFrame) (t : String)
    (hm : truthy (mget m t) = false) :
    processStep df m acc t = .ok (acc.setColNone t) := by
  unfold processStep
  cases hmm : mget m t with
  | none => rfl
  | some s =>
    rw [hmm] at hm
    simp only [truthy, bne_eq_false_iff_eq] at hm
    show (if s = "" then Except.ok (acc.setColNone t)
      else
        match df.getCol s with
        | some vals => Except.ok (acc.setCol t vals)
        | none => Except.error ("KeyError: " ++ s)) = Except.ok (acc.setColNone t)
    rw [if_pos hm]

/-- A truthy mapping value whose column exists makes the projection step a
list column assignment. -/
theorem processStep_eq_found (df : DataFrame) (m : Mapping) (acc : DataFrame) (t s : String)
    (vals : List Cell) (hm : mget m t = some s) (hs : s ≠ "") (hg : df.getCol s = some vals) :
    processStep df m acc t = .ok (acc.setCol t vals) := by
  unfold processStep
  rw [hm]
  show (if s = "" then Except.ok (acc.setColNone t)
    else
      match df.getCol s with
      | some vals => Except.ok (acc.setCol t vals)
      | none => Except.error ("KeyError: " ++ s)) = Except.ok (acc.setCol t vals)
  rw [if_neg hs, hg]

/-- A truthy mapping value whose column is absent raises a KeyError. -/
theorem processStep_eq_missing (df : DataFrame) (m : Mapping) (acc : DataFrame) (t s : String)
    (hm : mget m t = some s) (hs : s ≠ "") (hg : df.getCol s = none) :
    processStep df m acc t = .error ("KeyError: " ++ s) := by
  unfold processStep
  rw [hm]
  show (if s = "" then Except.ok (acc.setColNone t)
    else
      match df.getCol s with
      | some vals => Except.ok (acc.setCol t vals)
      | none => Except.error ("KeyError: " ++ s)) = Except.error ("KeyError: " ++ s)
  rw [if_neg hs, hg]

/-- Inversion of a successful projection step. -/
theorem processStep_ok_cases (df : DataFrame) (m : Mapping) (acc acc2 : DataFrame) (t : String)
    (h : processStep df m acc t = .ok acc2) :
    (truthy (mget m t) = false ∧ acc2 = acc.setColNone t)
    ∨ (∃ s vals, mget m t = some s ∧ s ≠ "" ∧ df.getCol s = some vals
        ∧ acc2 = acc.setCol t vals) := by
  cases hm : mget m t with
  | none =>
    rw [processStep_eq_untruthy df m acc t (by rw [hm]; rfl)] at h
    injection h with h
    exact Or.inl ⟨rfl, h.symm⟩
  | some s =>
    by_cases hs : s = ""
    · rw [processStep_eq_untruthy df m acc t (by rw [hm, hs]; rfl)] at h
      injection h with h
      refine Or.inl ⟨?_, h.symm⟩
      rw [hs]
      rfl
    · cases hg : df.getCol s with
      | none =>
        rw [processStep_eq_missing df m acc t s hm hs hg] at h
        simp at h
      | some vals =>
        rw [processStep_eq_found df m acc t s vals hm hs hg] at h
        injection h with h
        exact Or.inr ⟨s, vals, rfl, hs, hg, h.symm⟩

/-- A projection step fails exactly on a truthy mapping whose source column
is absent from the loaded frame; the accumulator is irrelevant. -/
theorem processStep_error_iff (df : DataFrame) (m : Mapping) (acc : DataFrame) (t : String) :
    (∃ e, processStep df m acc t = .error e)
      ↔ ∃ s, mget m t = some s ∧ s ≠ "" ∧ df.getCol s = none := by
  cases hm : mget m t with
  | none =>
    constructor
    · rintro ⟨e, he⟩
      rw [processStep_eq_untruthy df m acc t (by rw [hm]; rfl)] at he
      simp at he
    · rintro ⟨s2, hs2, _, _⟩
      simp at hs2
  | some s =>
    by_cases hs : s = ""
    · constructor
      · rintro ⟨e, he⟩
        rw [processStep_eq_untruthy df m acc t (by rw [hm, hs]; rfl)] at he
        simp at he
      · rintro ⟨s2, hs2, hne, _⟩
        injection hs2 with hs2
        subst hs2
        exact absurd hs hne
    · cases hg : df.getCol s with
      | none =>
        constructor
        · intro _
          exact ⟨s, rfl, hs, hg⟩
        · intro _
          exact ⟨_, processStep_eq_missing df m acc t s hm hs hg⟩
      | some vals =>
        constructor
        · rintro ⟨e, he⟩
          rw [processStep_eq_found df m acc t s vals hm hs hg] at he
          simp at he
        · rintro ⟨s2, hs2, hne, hg2⟩
          injection hs2 with hs2
          subst hs2
          rw [hg] at hg2
          simp at hg2

/-- A successful projection step keeps rectangularity. -/
theorem processStep_WF (df : DataFrame) (m : Mapping) (acc acc2 : DataFrame) (t : String)
    (hacc : acc.WF) (h : processStep df m acc t = .ok acc2) : acc2.WF := by
  rcases processStep_ok_cases df m acc acc2 t h with ⟨_, rfl⟩ | ⟨s, vals, _, _, _, rfl⟩
  · exact WF_setColNone _ _ hacc
  · exact setCol_WF _ _ _ hacc

/-- Row count of a successful projection step. -/
theorem processStep_nRows (df : DataFrame) (m : Mapping) (acc acc2 : DataFrame) (t : String)
    (hdf : df.WF) (h : processStep df m acc t = .ok acc2) :
    (truthy (mget m t) = false → acc2.nRows = acc.nRows)
    ∧ (truthy (mget m t) = true →
        acc2.nRows = if acc.nRows = 0 then df.nRows else acc.nRows) := by
  rcases processStep_ok_cases df m acc acc2 t h with ⟨htf, rfl⟩ | ⟨s, vals, hm, hs, hg, rfl⟩
  · refine ⟨fun _ => nRows_setColNone _ _, fun htt => ?_⟩
    rw [htf] at htt
    simp at htt
  · have htt : truthy (mget m t) = true := by
      rw [hm]
      simp [truthy, hs]
    refine ⟨fun htf => ?_, fun _ => ?_⟩
    · rw [htf] at htt
      simp at htt
    · have hlen : vals.length = df.nRows := getCol_length df s vals hdf hg
      rw [setCol_nRows]
      by_cases hz : acc.nRows = 0
      · by_cases hv : vals = []
        · rw [if_neg (fun hcon : acc.nRows = 0 ∧ vals ≠ [] => hcon.2 hv), if_pos hz,
            hz, ← hlen, hv]
          rfl
        · rw [if_pos ⟨hz, hv⟩, if_pos hz]
          exact hlen
      · rw [if_neg (fun hcon : acc.nRows = 0 ∧ vals ≠ [] => hz hcon.1), if_neg hz]

/-- A non-truthy projection step stores an all-null column for its target. -/
theorem processStep_null (df : DataFrame) (m : Mapping) (acc acc2 : DataFrame) (t : String)
    (htr : truthy (mget m t) = false) (h : processStep df m acc t = .ok acc2) :
    acc2.getCol t = some (List.replicate acc2.nRows (none : Cell)) := by
  rcases processStep_ok_cases df m acc acc2 t h with ⟨_, rfl⟩ | ⟨s, vals, hm, hs, _, rfl⟩
  · rw [getCol_setColNone_self, nRows_setColNone]
  · rw [hm] at htr
    simp [truthy, hs] at htr

/-- A projection step for a different target preserves an all-null column. -/
theorem processStep_null_pres (df : DataFrame) (m : Mapping) (acc acc2 : DataFrame)
    (t t2 : String) (hne : t ≠ t2) (h : processStep df m acc t2 = .ok acc2)
    (hn : acc.getCol t = some (List.replicate acc.nRows (none : Cell))) :
    acc2.getCol t = some (List.replicate acc2.nRows (none : Cell)) := by
  rcases processStep_ok_cases df m acc acc2 t2 h with ⟨_, rfl⟩ | ⟨s, vals, hm, hs, hg, rfl⟩
  · rw [getCol_setColNone_ne _ _ _ hne, nRows_setColNone]
    exact hn
  · rw [setCol_getCol_ne _ _ _ _ hne, setCol_nRows]
    by_cases hc : acc.nRows = 0 ∧ vals ≠ []
    · rw [if_pos hc, if_pos hc, hn]
      rfl
    · rw [if_neg hc, if_neg hc]
      exact hn

/-- Labels of a successful projection step on a fresh target. -/
theorem processStep_names (df : DataFrame) (m : Mapping) (acc acc2 : DataFrame) (t : String)
    (h : processStep df m acc t = .ok acc2) (ht : t ∉ acc.names) :
    acc2.names = acc.names ++ [t] := by
  rcases processStep_ok_cases df m acc acc2 t h with ⟨_, rfl⟩ | ⟨s, vals, _, _, _, rfl⟩
  · rw [names_setColNone, if_neg ht]
  · rw [setCol_names, if_neg ht]

/-- Unfolding of the projection loop on a cons list. -/
theorem processAux_cons (df : DataFrame) (m : Mapping) (t : String) (rest : List String)
    (acc : DataFrame) :
    processAux df m (t :: rest) acc =
      match processStep df m acc t with
      | .ok acc2 => processAux df m rest acc2
      | .error e => .error e := rfl

/-- The projection loop fails exactly when some target field has a truthy
mapping to a column absent from the loaded frame. -/
theorem processAux_error_iff (df : DataFrame) (m : Mapping) :
    ∀ (ts : List String) (acc : DataFrame),
      (∃ e, processAux df m ts acc = .error e)
        ↔ ∃ t ∈ ts, ∃ s, mget m t = some s ∧ s ≠ "" ∧ df.getCol s = none := by
  intro ts
  induction ts with
  | nil =>
    intro acc
    simp [processAux]
  | cons t2 rest ih =>
    intro acc
    rw [processAux_cons]
    cases hstep : processStep df m acc t2 with
    | error e =>
      constructor
      · intro _
        obtain ⟨s, h1⟩ := (processStep_error_iff df m acc t2).mp ⟨e, hstep⟩
        exact ⟨t2, List.mem_cons_self _ _, s, h1⟩
      · intro _
        exact ⟨e, rfl⟩
    | ok acc2 =>
      constructor
      · intro hE
        obtain ⟨t, ht, s, h1⟩ := (ih acc2).mp hE
        exact ⟨t, List.mem_cons_of_mem _ ht, s, h1⟩
      · rintro ⟨t, ht, s, hs1, hs2, hs3⟩
        rcases List.mem_cons.mp ht with rfl | ht
        · obtain ⟨e, he⟩ := (processStep_error_iff df m acc t).mpr ⟨s, hs1, hs2, hs3⟩
          rw [hstep] at he
          simp at he
        · exact (ih acc2).mpr ⟨t, ht, s, hs1, hs2, hs3⟩

/-- The projection loop keeps rectangularity. -/
theorem processAux_WF (df : DataFrame) (m : Mapping) :
    ∀ (ts : List String) (acc out : DataFrame),
      processAux df m ts acc = .ok out → acc.WF → out.WF := by
  intro ts
  induction ts with
  | nil =>
    intro acc out h hacc
    injection h with h
    rw [← h]
    exact hacc
  | cons t2 rest ih =>
    intro acc out h hacc
    rw [processAux_cons] at h
    cases hstep : processStep df m acc t2 with
    | error e => rw [hstep] at h; simp at h
    | ok acc2 =>
      rw [hstep] at h
      exact ih acc2 out h (processStep_WF df m acc acc2 t2 hacc hstep)

/-- Row-count tracking along the projection loop: the accumulator row count
stays in the set containing zero and the source row count, reaching the
source row count as soon as one truthy target is processed, and staying at
zero while none is. -/
theorem processAux_nRows (df : DataFrame) (m : Mapping) (hdf : df.WF) :
    ∀ (ts : List String) (acc out : DataFrame),
      processAux df m ts acc = .ok out →
      (acc.nRows = 0 ∨ acc.nRows = df.nRows) →
      ((acc.nRows = df.nRows → out.nRows = df.nRows)
       ∧ (out.nRows = 0 ∨ out.nRows = df.nRows)
       ∧ ((∃ t ∈ ts, truthy (mget m t) = true) → out.nRows = df.nRows)
       ∧ ((acc.nRows = 0 ∧ ∀ t ∈ ts, truthy (mget m t) = false) → out.nRows = 0)) := by
  intro ts
  induction ts with
  | nil =>
    intro acc out h hinv
    injection h with h
    subst h
    refine ⟨fun hx => hx, hinv, fun hx => ?_, fun hx => hx.1⟩
    obtain ⟨t, ht, _⟩ := hx
    exact absurd ht (List.not_mem_nil t)
  | cons t2 rest ih =>
    intro acc out h hinv
    rw [processAux_cons] at h
    cases hstep : processStep df m acc t2 with
    | error e => rw [hstep] at h; simp at h
    | ok acc2 =>
      rw [hstep] at h
      have hstepn := processStep_nRows df m acc acc2 t2 hdf hstep
      have hinv2 : acc2.nRows = 0 ∨ acc2.nRows = df.nRows := by
        cases htr : truthy (mget m t2) with
        | false => rw [hstepn.1 htr]; exact hinv
        | true =>
          rw [hstepn.2 htr]
          by_cases hz : acc.nRows = 0
          · rw [if_pos hz]; exact Or.inr rfl
          · rw [if_neg hz]; exact hinv
      have habs : acc.nRows = df.nRows → acc2.nRows = df.nRows := by
        intro hacc
        cases htr : truthy (mget m t2) with
        | false => rw [hstepn.1 htr]; exact hacc
        | true =>
          rw [hstepn.2 htr]
          by_cases hz : acc.nRows = 0
          · rw [if_pos hz]
          · rw [if_neg hz]; exact hacc
      have ihres := ih acc2 out h hinv2
      refine ⟨fun hacc => ihres.1 (habs hacc), ihres.2.1, fun hx => ?_, fun hx => ?_⟩
      · obtain ⟨t, ht, htt⟩ := hx
        rcases List.mem_cons.mp ht with rfl | ht
        · refine ihres.1 ?_
          rw [hstepn.2 htt]
          by_cases hz : acc.nRows = 0
          · rw [if_pos hz]
          · rw [if_neg hz]
            rcases hinv with hinv | hinv
            · exact absurd hinv hz
            · exact hinv
        · exact ihres.2.2.1 ⟨t, ht, htt⟩
      · obtain ⟨hz, hall⟩ := hx
        refine ihres.2.2.2 ⟨?_, fun t ht => hall t (List.mem_cons_of_mem _ ht)⟩
        rw [hstepn.1 (hall t2 (List.mem_cons_self _ _)), hz]

/-- Along the projection loop, a target with a non-truthy mapping that is
processed (or already holds an all-null column) ends with an all-null
column. -/
theorem processAux_null (df : DataFrame) (m : Mapping) (t : String)
    (htr : truthy (mget m t) = false) :
    ∀ (ts : List String) (acc out : DataFrame),
      processAux df m ts acc = .ok out →
      (t ∈ ts ∨ acc.getCol t = some (List.replicate acc.nRows (none : Cell))) →
      out.getCol t = some (List.replicate out.nRows (none : Cell)) := by
  intro ts
  induction ts with
  | nil =>
    intro acc out h hmem
    injection h with h
    subst h
    rcases hmem with hmem | hmem
    · exact absurd hmem (List.not_mem_nil t)
    · exact hmem
  | cons t2 rest ih =>
    intro acc out h hmem
    rw [processAux_cons] at h
    cases hstep : processStep df m acc t2 with
    | error e => rw [hstep] at h; simp at h
    | ok acc2 =>
      rw [hstep] at h
      by_cases hteq : t = t2
      · subst hteq
        exact ih acc2 out h (Or.inr (processStep_null df m acc acc2 t htr hstep))
      · rcases hmem with hmem | hmem
        · rcases List.mem_cons.mp hmem with heq | hmem
          · exact absurd heq hteq
          · exact ih acc2 out h (Or.inl hmem)
        · exact ih acc2 out h
            (Or.inr (processStep_null_pres df m acc acc2 t t2 hteq hstep hmem))

/-- The labels produced by the projection loop extend the accumulator by
the processed targets, in order. -/
theorem processAux_names (df : DataFrame) (m : Mapping) :
    ∀ (ts : List String) (acc out : DataFrame),
      processAux df m ts acc = .ok out →
      (∀ t ∈ ts, t ∉ acc.names) → ts.Nodup → out.names = acc.names ++ ts := by
  intro ts
  induction ts with
  | nil =>
    intro acc out h _ _
    injection h with h
    subst h
    simp
  | cons t2 rest ih =>
    intro acc out h hdisj hnd
    rw [processAux_cons] at h
    cases hstep : processStep df m acc t2 with
    | error e => rw [hstep] at h; simp at h
    | ok acc2 =>
      rw [hstep] at h
      have hnames2 : acc2.names = acc.names ++ [t2] :=
        processStep_names df m acc acc2 t2 hstep (hdisj t2 (List.mem_cons_self _ _))
      have hdisj2 : ∀ t ∈ rest, t ∉ acc2.names := by
        intro t ht
        rw [hnames2]
        intro hmem
        rcases List.mem_append.mp hmem with hmem | hmem
        · exact hdisj t (List.mem_cons_of_mem _ ht) hmem
        · rw [List.mem_singleton.mp hmem] at ht
          exact (List.nodup_cons.mp hnd).1 ht
      rw [ih acc2 out h hdisj2 (List.nodup_cons.mp hnd).2, hnames2, List.append_assoc]
      rfl

/-- C4 counterexample: the projection does not fail on an empty target
schema (it returns an empty frame, there is no SchemaError in the code),
while it does fail on a nonempty schema whose mapping names a source column
absent from the table. -/
theorem projection_empty_schema_cex :
    processData ⟨[("A", [some "x"])]⟩ [] [] = Except.ok ⟨[]⟩ ∧
    processData ⟨[("A", [some "x"])]⟩ [("X", some "Missing")] ["X"]
      = Except.error "KeyError: Missing" := ⟨rfl, rfl⟩

/-- C4 (amended): the projection never raises a SchemaError; an empty
schema yields the empty frame, the projection fails exactly when some
target field has a truthy mapping to a source column absent from the
table, and on success every non-truthy target field holds an all-null
column. -/
theorem projection_error_iff_nulls (df : DataFrame) (m : Mapping) (ts : List String) :
    processData df m [] = Except.ok ⟨[]⟩
    ∧ ((∃ e, processData df m ts = .error e)
        ↔ ∃ t ∈ ts, ∃ s, mget m t = some s ∧ s ≠ "" ∧ df.getCol s = none)
    ∧ (∀ out, processData df m ts = .ok out → ∀ t ∈ ts, truthy (mget m t) = false →
        out.getCol t = some (List.replicate out.nRows (none : Cell))) := by
  refine ⟨rfl, processAux_error_iff df m ts ⟨[]⟩, ?_⟩
  intro out h t ht htr
  exact processAux_null df m t htr ts ⟨[]⟩ out h (Or.inl ht)

/-- Witness for the amended C4 theorem at a concrete input: the unmapped
field X of a two-row projection is an all-null column. -/
theorem projection_error_iff_nulls_witness :
    processData ⟨[("E-mail", [some "a", some "b"])]⟩ [("Email", some "E-mail")] ["X", "Email"]
      = Except.ok ⟨[("X", [none, none]), ("Email", [some "a", some "b"])]⟩ ∧
    DataFrame.getCol ⟨[("X", ([none, none] : List Cell)), ("Email", [some "a", some "b"])]⟩ "X"
      = some (List.replicate (DataFrame.nRows
          ⟨[("X", ([none, none] : List Cell)), ("Email", [some "a", some "b"])]⟩) (none : Cell)) := by
  refine ⟨rfl, ?_⟩
  exact (projection_error_iff_nulls ⟨[("E-mail", [some "a", some "b"])]⟩
      [("Email", some "E-mail")] ["X", "Email"]).2.2
      ⟨[("X", [none, none]), ("Email", [some "a", some "b"])]⟩ rfl "X" (by decide) (by decide)

/-- C5 counterexample: with a one-row source table and no mapped target
field, the projection produces a zero-row frame, so the row count is not
preserved. -/
theorem projection_row_count_cex :
    processData ⟨[("A", [some "x"])]⟩ [] ["X"] = Except.ok ⟨[("X", [])]⟩ ∧
    DataFrame.nRows ⟨[("X", ([] : List Cell))]⟩ = 0 ∧
    DataFrame.nRows ⟨[("A", [some "x"])]⟩ = 1 := ⟨rfl, rfl, rfl⟩

/-- C5 (amended): the projection has exactly as many rows as the source
table whenever at least one target field carries a truthy mapping; when no
target field does, the projected frame has zero rows. -/
theorem projection_row_count (df : DataFrame) (m : Mapping) (ts : List String)
    (out : DataFrame) (hdf : df.WF) (h : processData df m ts = .ok out) :
    ((∃ t ∈ ts, truthy (mget m t) = true) → out.nRows = df.nRows)
    ∧ ((∀ t ∈ ts, truthy (mget m t) = false) → out.nRows = 0) := by
  have hres := processAux_nRows df m hdf ts ⟨[]⟩ out h (Or.inl rfl)
  exact ⟨hres.2.2.1, fun hall => hres.2.2.2 ⟨rfl, hall⟩⟩

/-- Witness for the amended C5 theorem at a concrete input: one mapped
field, two source rows, two projected rows. -/
theorem projection_row_count_witness :
    processData ⟨[("A", [some "1", some "2"])]⟩ [("X", some "A")] ["X", "Y"]
      = Except.ok ⟨[("X", [some "1", some "2"]), ("Y", [none, none])]⟩ ∧
    DataFrame.nRows ⟨[("X", [some "1", some "2"]), ("Y", ([none, none] : List Cell))]⟩
      = DataFrame.nRows ⟨[("A", [some "1", some "2"])]⟩ := by
  refine ⟨rfl, ?_⟩
  exact (projection_row_count ⟨[("A", [some "1", some "2"])]⟩ [("X", some "A")] ["X", "Y"]
      ⟨[("X", [some "1", some "2"]), ("Y", [none, none])]⟩ (by decide) rfl).1
      ⟨"X", by decide, by decide⟩

/-- C8: when the validated field Email is absent from the projected
columns, the Validator returns its input unchanged, with the same rows and
the same row count. -/
theorem validator_noop (df : DataFrame) (oracle : Cell → HttpOutcome) (key : String)
    (h : "Email" ∉ df.names) :
    verifyEmails df oracle key = (df, df)
    ∧ (verifyEmails df oracle key).2.nRows = df.nRows := by
  constructor
  · unfold verifyEmails
    rw [if_neg h]
  · unfold verifyEmails
    rw [if_neg h]

/-- Witness for the C8 theorem at a concrete frame without an Email
column. -/
theorem validator_noop_witness :
    verifyEmails ⟨[("Name", [some "Alice"])]⟩ (fun _ => HttpOutcome.exn) "k"
      = (⟨[("Name", [some "Alice"])]⟩, ⟨[("Name", [some "Alice"])]⟩)
    ∧ (verifyEmails ⟨[("Name", [some "Alice"])]⟩ (fun _ => HttpOutcome.exn) "k").2.nRows
      = DataFrame.nRows ⟨[("Name", [some "Alice"])]⟩ :=
  validator_noop ⟨[("Name", [some "Alice"])]⟩ (fun _ => HttpOutcome.exn) "k" (by decide)

/-- C6: with a nonempty API key and the verification checkbox set, the
start action always fails with a TypeError and the session stays in the
Mapped state with the error surfaced, because the local name
`verify_emails` bound to the checkbox boolean at src/cleanlist.py line 342
shadows the validator function called at line 347; the claimed successful
run of the Validator is unreachable. -/
theorem start_processing_type_error :
    stepStart
      (SessionState.mapped ⟨[("E-mail Address", [some "x@y.z"])]⟩
        [("Email", some "E-mail Address")])
      ["Email", "Name"] "secret-key" true "leads.csv"
    = (SessionState.mapped ⟨[("E-mail Address", [some "x@y.z"])]⟩
        [("Email", some "E-mail Address")],
       some "TypeError: bool object is not callable") := rfl

/-- C1 counterexample: a 2xx response with a parseable body but no result
field is classified invalid, not as the unknown/error outcome; and a
non-2xx response carrying a result field is classified by that field. -/
theorem verifier_missing_result_cex :
    classifyResponse (HttpOutcome.response 200 (some [("status", "success")])) = "invalid" ∧
    classifyResponse (HttpOutcome.response 500 (some [("result", "valid")])) = "valid" ∧
    (verifyEmails ⟨[("Email", [some "a@b.c"])]⟩
        (fun _ => HttpOutcome.response 200 (some [("status", "success")])) "k").1.getCol
        "Email Status" = some [some "invalid"] ∧
    ¬ ("invalid" = "error" ∨ "invalid" = "unknown") :=
  ⟨rfl, rfl, rfl, by decide⟩

/-- C3 counterexample: loading a stored template overwrites the mapping
verbatim (src/cleanlist.py line 164), so a template binding one source
column to two target fields violates the uniqueness invariant. -/
theorem mapping_dup_via_template_cex :
    ¬ MappingInv (applyOps ["Work Email"]
        [MapOp.loadTemplate [("Email", some "Work Email"), ("Name", some "Work Email")]] []) :=
  fun h =>
    absurd (h "Email" "Name" "Work Email" (by decide) (by decide) (by decide)) (by decide)

/-- C10 counterexample: when the projected schema already contains an
Email Status field, the Validator overwrites its values in place, so not
every projected field is left unchanged. -/
theorem validator_overwrites_status_cex :
    (verifyEmails ⟨[("Email", [some "a@b.c"]), ("Email Status", [some "previous"])]⟩
        (fun _ => HttpOutcome.exn) "k").1.getCol "Email Status" = some [some "error"] ∧
    DataFrame.getCol ⟨[("Email", [some "a@b.c"]), ("Email Status", [some "previous"])]⟩
        "Email Status" = some [some "previous"] := ⟨rfl, rfl⟩

/-- With the Email column present, the Validator annotates the callers
frame: the Email Status column holds the per-row classification, all other
columns and the row count are untouched, rectangularity is kept, and the
label list gains Email Status unless it was already present. -/
theorem verifyEmails_annotated (df : DataFrame) (oracle : Cell → HttpOutcome) (key : String)
    (hE : "Email" ∈ df.names) (hdf : df.WF) :
    (verifyEmails df oracle key).1.getCol "Email Status"
      = some (((df.getCol "Email").getD []).map
          (fun e => (some (classifyResponse (oracle e)) : Cell)))
    ∧ (∀ name2, name2 ≠ "Email Status" →
        (verifyEmails df oracle key).1.getCol name2 = df.getCol name2)
    ∧ (verifyEmails df oracle key).1.nRows = df.nRows
    ∧ (verifyEmails df oracle key).1.WF
    ∧ (verifyEmails df oracle key).1.names
        = (if "Email Status" ∈ df.names then df.names else df.names ++ ["Email Status"]) := by
  obtain ⟨evals, hev⟩ := getCol_isSome_of_mem df "Email" hE
  have hlen : (((df.getCol "Email").getD []).map
      (fun e => (some (classifyResponse (oracle e)) : Cell))).length = df.nRows := by
    rw [hev]
    simp [getCol_length df "Email" evals hdf hev]
  have hcond : ¬ (df.nRows = 0 ∧ ((df.getCol "Email").getD []).map
      (fun e => (some (classifyResponse (oracle e)) : Cell)) ≠ []) := by
    rintro ⟨hz, hne⟩
    exact hne (List.length_eq_zero.mp (hlen.trans hz))
  have h1 : (verifyEmails df oracle key).1
      = df.setCol "Email Status" (((df.getCol "Email").getD []).map
          (fun e => (some (classifyResponse (oracle e)) : Cell))) := by
    unfold verifyEmails
    rw [if_pos hE]
  refine ⟨?_, ?_, ?_, ?_, ?_⟩
  · rw [h1, setCol_getCol_self, if_neg hcond, ← hlen, range_map_getD]
  · intro name2 hne
    rw [h1, setCol_getCol_ne _ _ _ _ hne, if_neg hcond]
  · rw [h1, setCol_nRows, if_neg hcond]
  · rw [h1]
    exact setCol_WF _ _ _ hdf
  · rw [h1, setCol_names]

/-- The returned filtered frame has the same labels as the annotated one. -/
theorem filterValid_names (df : DataFrame) : (filterValid df).names = df.names := by
  unfold filterValid DataFrame.filterByMask
  exact names_map_snd df.cols
    (applyMask (((df.getCol "Email Status").getD []).map (fun v => v == some "valid")))

/-- C10 (amended): with the Email field present, the Validator mutates the
callers frame in place by storing an Email Status column holding each
rows computed outcome (overwriting such a column when the projection
already contains one), leaves every other projected columns values in
every row unchanged, and the returned filtered frame carries the Email
Status column as well. -/
theorem validator_frame_effect (df : DataFrame) (oracle : Cell → HttpOutcome) (key : String)
    (name2 : String) (hE : "Email" ∈ df.names) (hdf : df.WF)
    (hne : name2 ≠ "Email Status") :
    (verifyEmails df oracle key).1.getCol "Email Status"
      = some (((df.getCol "Email").getD []).map
          (fun e => (some (classifyResponse (oracle e)) : Cell)))
    ∧ (verifyEmails df oracle key).1.getCol name2 = df.getCol name2
    ∧ (verifyEmails df oracle key).2.names = (verifyEmails df oracle key).1.names
    ∧ "Email Status" ∈ (verifyEmails df oracle key).2.names := by
  obtain ⟨hself, hother, _, _, hnames⟩ := verifyEmails_annotated df oracle key hE hdf
  have h2 : (verifyEmails df oracle key).2 = filterValid (verifyEmails df oracle key).1 := by
    unfold verifyEmails
    rw [if_pos hE]
  refine ⟨hself, hother name2 hne, by rw [h2, filterValid_names], ?_⟩
  rw [h2, filterValid_names, hnames]
  by_cases hmem : "Email Status" ∈ df.names
  · rw [if_pos hmem]
    exact hmem
  · rw [if_neg hmem]
    exact List.mem_append_right _ (List.mem_singleton.mpr rfl)

/-- Witness for the amended C10 theorem at a concrete two-column frame. -/
theorem validator_frame_effect_witness :
    (verifyEmails ⟨[("Name", [some "Bob"]), ("Email", [some "x@y"])]⟩
        (fun _ => HttpOutcome.exn) "k").1.getCol "Email Status"
      = some (((DataFrame.getCol ⟨[("Name", [some "Bob"]), ("Email", [some "x@y"])]⟩
          "Email").getD []).map
          (fun e => (some (classifyResponse ((fun _ => HttpOutcome.exn) e)) : Cell)))
    ∧ (verifyEmails ⟨[("Name", [some "Bob"]), ("Email", [some "x@y"])]⟩
        (fun _ => HttpOutcome.exn) "k").1.getCol "Name"
      = DataFrame.getCol ⟨[("Name", [some "Bob"]), ("Email", [some "x@y"])]⟩ "Name"
    ∧ (verifyEmails ⟨[("Name", [some "Bob"]), ("Email", [some "x@y"])]⟩
        (fun _ => HttpOutcome.exn) "k").2.names
      = (verifyEmails ⟨[("Name", [some "Bob"]), ("Email", [some "x@y"])]⟩
        (fun _ => HttpOutcome.exn) "k").1.names
    ∧ "Email Status" ∈ (verifyEmails ⟨[("Name", [some "Bob"]), ("Email", [some "x@y"])]⟩
        (fun _ => HttpOutcome.exn) "k").2.names :=
  validator_frame_effect ⟨[("Name", [some "Bob"]), ("Email", [some "x@y"])]⟩
    (fun _ => HttpOutcome.exn) "k" "Name" (by decide) (by decide) (by decide)

/-- C1 (amended): no exception escapes the per-row verification: the
Email Status column is exactly the classification of the oracle outcome
for each row, where a raised request (transport failure or timeout) and an
unparseable body are classified error, and a parseable body is classified
by its result field with invalid substituted when the field is missing,
the HTTP status code never being consulted. -/
theorem verifier_classification (df : DataFrame) (oracle : Cell → HttpOutcome) (key : String)
    (hE : "Email" ∈ df.names) (hdf : df.WF) :
    (verifyEmails df oracle key).1.getCol "Email Status"
      = some (((df.getCol "Email").getD []).map
          (fun e => (some (classifyResponse (oracle e)) : Cell)))
    ∧ classifyResponse HttpOutcome.exn = "error"
    ∧ classifyResponse (HttpOutcome.response 404 none) = "error" :=
  ⟨(verifyEmails_annotated df oracle key hE hdf).1, rfl, rfl⟩

/-- Witness for the amended C1 theorem: four rows whose oracle outcomes
are a timeout, a 500 with unparseable body, a 200 carrying result valid
and a 404 carrying result valid; the stored statuses are error, error,
valid, valid. -/
theorem verifier_classification_witness :
    (verifyEmails ⟨[("Email", [some "a", some "b", some "c", some "d"])]⟩
        (fun e =>
          if e = some "a" then HttpOutcome.exn
          else if e = some "b" then HttpOutcome.response 500 none
          else if e = some "c" then HttpOutcome.response 200 (some [("result", "valid")])
          else HttpOutcome.response 404 (some [("result", "valid")])) "k").1.getCol
      "Email Status"
      = some [some "error", some "error", some "valid", some "valid"] :=
  ((verifier_classification ⟨[("Email", [some "a", some "b", some "c", some "d"])]⟩
      (fun e =>
        if e = some "a" then HttpOutcome.exn
        else if e = some "b" then HttpOutcome.response 500 none
        else if e = some "c" then HttpOutcome.response 200 (some [("result", "valid")])
        else HttpOutcome.response 404 (some [("result", "valid")])) "k"
      (by decide) (by decide)).1).trans rfl

/-- Mask selection returns at most as many values. -/
theorem applyMask_length_le (mask : List Bool) :
    ∀ (vals : List Cell), (applyMask mask vals).length ≤ vals.length := by
  induction mask with
  | nil => intro vals; simp [applyMask]
  | cons b ms ih =>
    intro vals
    cases vals with
    | nil => simp [applyMask]
    | cons v vs =>
      cases b
      · rw [show applyMask (false :: ms) (v :: vs) = applyMask ms vs from rfl]
        exact le_trans (ih vs) (Nat.le_succ _)
      · rw [show applyMask (true :: ms) (v :: vs) = v :: applyMask ms vs from rfl]
        simpa using ih vs

/-- Mask selection on values of the mask length returns exactly the number
of true positions. -/
theorem applyMask_length_eq (mask : List Bool) :
    ∀ (vals : List Cell), vals.length = mask.length →
      (applyMask mask vals).length = countTrue mask := by
  induction mask with
  | nil =>
    intro vals h
    rw [List.length_eq_zero.mp h]
    rfl
  | cons b ms ih =>
    intro vals h
    cases vals with
    | nil => simp at h
    | cons v vs =>
      have hlen : vs.length = ms.length := by simpa using h
      cases b
      · rw [show applyMask (false :: ms) (v :: vs) = applyMask ms vs from rfl,
          show countTrue (false :: ms) = countTrue ms from rfl]
        exact ih vs hlen
      · rw [show applyMask (true :: ms) (v :: vs) = v :: applyMask ms vs from rfl,
          show countTrue (true :: ms) = countTrue ms + 1 from rfl]
        simp [ih vs hlen]

/-- Row count never grows under boolean-mask selection. -/
theorem filterByMask_nRows_le (df : DataFrame) (mask : List Bool) :
    (df.filterByMask mask).nRows ≤ df.nRows := by
  obtain ⟨cols⟩ := df
  cases cols with
  | nil => exact Nat.le_refl _
  | cons c rest => exact applyMask_length_le mask c.2

/-- Row count under boolean-mask selection on a rectangular nonempty frame. -/
theorem filterByMask_nRows_eq (df : DataFrame) (mask : List Bool) (hne : df.cols ≠ [])
    (h : ∀ c ∈ df.cols, c.2.length = mask.length) :
    (df.filterByMask mask).nRows = countTrue mask := by
  obtain ⟨cols⟩ := df
  cases cols with
  | nil => exact absurd rfl hne
  | cons c rest =>
    exact applyMask_length_eq mask c.2 (h c (List.mem_cons_self _ _))

/-- Lengths of the tail frame columns. -/
theorem tailRows_cols_len (df : DataFrame) (n : Nat)
    (h : ∀ c ∈ df.cols, c.2.length = n + 1) :
    ∀ c ∈ df.tailRows.cols, c.2.length = n := by
  intro c hc
  unfold DataFrame.tailRows at hc
  simp only [List.mem_map] at hc
  obtain ⟨c0, hc0, he⟩ := hc
  rw [← he]
  simp [h c0 hc0]

/-- Selecting with a true head keeps the first row and continues on the
tails. -/
theorem filterByMask_true_decomp (df : DataFrame) (ms : List Bool)
    (h : ∀ c ∈ df.cols, c.2.length = ms.length + 1) :
    (df.filterByMask (true :: ms)).rowAt0 = df.rowAt0
    ∧ (df.filterByMask (true :: ms)).tailRows = (df.tailRows).filterByMask ms := by
  constructor
  · unfold DataFrame.filterByMask DataFrame.rowAt0
    simp only [List.map_map]
    apply List.map_congr_left
    intro c hc
    have hne2 : c.2 ≠ [] := fun hnil => by
      have hl := h c hc
      rw [hnil] at hl
      simp at hl
    obtain ⟨v, vs, hvc⟩ := List.exists_cons_of_ne_nil hne2
    simp [Function.comp, hvc, applyMask]
  · unfold DataFrame.filterByMask DataFrame.tailRows
    simp only [List.map_map]
    congr 1
    apply List.map_congr_left
    intro c hc
    have hne2 : c.2 ≠ [] := fun hnil => by
      have hl := h c hc
      rw [hnil] at hl
      simp at hl
    obtain ⟨v, vs, hvc⟩ := List.exists_cons_of_ne_nil hne2
    simp [Function.comp, hvc, applyMask]

/-- Selecting with a false head drops the first row. -/
theorem filterByMask_false_decomp (df : DataFrame) (ms : List Bool)
    (h : ∀ c ∈ df.cols, c.2.length = ms.length + 1) :
    df.filterByMask (false :: ms) = (df.tailRows).filterByMask ms := by
  unfold DataFrame.filterByMask DataFrame.tailRows
  simp only [List.map_map]
  congr 1
  apply List.map_congr_left
  intro c hc
  have hne2 : c.2 ≠ [] := fun hnil => by
    have hl := h c hc
    rw [hnil] at hl
    simp at hl
  obtain ⟨v, vs, hvc⟩ := List.exists_cons_of_ne_nil hne2
  simp [Function.comp, hvc, applyMask]

/-- Column-wise boolean-mask selection agrees with row-wise mask
filtering. -/
theorem rowsAux_filterByMask (mask : List Bool) :
    ∀ (df : DataFrame), (∀ c ∈ df.cols, c.2.length = mask.length) →
      rowsAux (countTrue mask) (df.filterByMask mask)
        = filterMask mask (rowsAux mask.length df) := by
  induction mask with
  | nil => intro df _; rfl
  | cons b ms ih =>
    intro df h
    have hlen : ∀ c ∈ df.cols, c.2.length = ms.length + 1 := by
      intro c hc
      simpa using h c hc
    cases b
    · rw [show countTrue (false :: ms) = countTrue ms from rfl,
        filterByMask_false_decomp df ms hlen,
        ih (df.tailRows) (tailRows_cols_len df ms.length hlen)]
      rfl
    · have hd := filterByMask_true_decomp df ms hlen
      rw [show countTrue (true :: ms) = countTrue ms + 1 from rfl]
      rw [show rowsAux (countTrue ms + 1) (df.filterByMask (true :: ms))
          = (df.filterByMask (true :: ms)).rowAt0
            :: rowsAux (countTrue ms) (df.filterByMask (true :: ms)).tailRows from rfl]
      rw [hd.1, hd.2, ih (df.tailRows) (tailRows_cols_len df ms.length hlen)]
      rfl

/-- Row-wise mask filtering is list filtering when the mask recomputes
pointwise from the rows. -/
theorem filterMask_eq_filter (p : Row → Bool) (mask : List Bool) (rows : List Row)
    (h : List.Forall₂ (fun b r => b = p r) mask rows) :
    filterMask mask rows = rows.filter p := by
  induction h with
  | nil => rfl
  | cons hbr hrest ih =>
    rename_i b r ms rs
    rw [show filterMask (b :: ms) (r :: rs)
        = if b then r :: filterMask ms rs else filterMask ms rs from rfl]
    rw [List.filter_cons, ← hbr, ih]

/-- Cell lookup in a cons row. -/
theorem rowGet_cons (e : String × Cell) (rest : Row) (name : String) :
    rowGet (e :: rest) name = if e.1 = name then e.2 else rowGet rest name := by
  by_cases hc : e.1 = name
  case pos =>
    have hb : (e.1 == name) = true := by simp [hc]
    simp [rowGet, List.find?, hb, hc]
  case neg =>
    have hb : (e.1 == name) = false := by simp [hc]
    simp [rowGet, List.find?, hb, hc]

/-- Cell lookup in the first row reads the head of the column. -/
theorem rowGet_rowAt0 (cols : List (String × List Cell)) (name : String) :
    rowGet (DataFrame.rowAt0 ⟨cols⟩) name
      = ((DataFrame.getCol ⟨cols⟩ name).map (fun l => l.headD none)).getD none := by
  induction cols with
  | nil => rfl
  | cons c rest ih =>
    rw [show DataFrame.rowAt0 ⟨c :: rest⟩
        = (c.1, c.2.headD none) :: DataFrame.rowAt0 ⟨rest⟩ from rfl]
    rw [rowGet_cons, getCol_cons]
    by_cases hc : c.1 = name
    · rw [if_pos hc, if_pos hc]
      rfl
    · rw [if_neg hc, if_neg hc]
      exact ih

/-- The named column read row-by-row: each row holds its own value of the
column. -/
theorem status_forall₂ (name : String) :
    ∀ (vals : List Cell) (df : DataFrame),
      df.getCol name = some vals →
      (∀ c ∈ df.cols, c.2.length = vals.length) →
      List.Forall₂ (fun v r => rowGet r name = v) vals (rowsAux vals.length df) := by
  intro vals
  induction vals with
  | nil => intro df _ _; exact List.Forall₂.nil
  | cons v vs ih =>
    intro df hget hlen
    rw [show rowsAux (v :: vs).length df
        = df.rowAt0 :: rowsAux vs.length df.tailRows from rfl]
    refine List.Forall₂.cons ?_ ?_
    · have hr := rowGet_rowAt0 df.cols name
      rw [hget] at hr
      simpa using hr
    · have hget2 : df.tailRows.getCol name = some vs := by
        unfold DataFrame.tailRows
        rw [getCol_map_snd df.cols List.tail name, hget]
        rfl
      exact ih df.tailRows hget2 (tailRows_cols_len df vs.length hlen)

/-- C2: with the Email field present, the frame returned by the Validator
is exactly the annotated frame filtered to the rows whose Email Status
cell is valid — a row is present in the output iff its computed outcome is
exactly valid — and the output row count is at most the input row count. -/
theorem validator_filter_law (df : DataFrame) (oracle : Cell → HttpOutcome) (key : String)
    (hE : "Email" ∈ df.names) (hdf : df.WF) :
    (verifyEmails df oracle key).2.nRows ≤ df.nRows
    ∧ (verifyEmails df oracle key).2.rowsL
      = ((verifyEmails df oracle key).1.rowsL).filter
          (fun r => rowGet r "Email Status" == some "valid") := by
  obtain ⟨hself, hother, hnr, hWFann, hnames⟩ := verifyEmails_annotated df oracle key hE hdf
  have h2 : (verifyEmails df oracle key).2 = filterValid (verifyEmails df oracle key).1 := by
    unfold verifyEmails
    rw [if_pos hE]
  set ann := (verifyEmails df oracle key).1 with hann
  have hsvlen : (((df.getCol "Email").getD []).map
      (fun e => (some (classifyResponse (oracle e)) : Cell))).length = ann.nRows :=
    getCol_length ann "Email Status" _ hWFann hself
  have hmask : filterValid ann
      = ann.filterByMask ((((df.getCol "Email").getD []).map
          (fun e => (some (classifyResponse (oracle e)) : Cell))).map
          (fun v => v == some "valid")) := by
    unfold filterValid
    rw [hself]
    rfl
  set mask := (((df.getCol "Email").getD []).map
      (fun e => (some (classifyResponse (oracle e)) : Cell))).map
      (fun v => v == some "valid") with hmaskdef
  have hmasklen : mask.length = ann.nRows := by
    rw [hmaskdef, List.length_map]
    exact hsvlen
  have hcols : ∀ c ∈ ann.cols, c.2.length = mask.length := by
    intro c hc
    rw [hmasklen]
    exact hWFann c hc
  have hEann : "Email" ∈ ann.names := by
    rw [hnames]
    by_cases hmem : "Email Status" ∈ df.names
    · rw [if_pos hmem]
      exact hE
    · rw [if_neg hmem]
      exact List.mem_append_left _ hE
  have hconsne : ann.cols ≠ [] := by
    intro hnil
    have hempty : ann.names = [] := by
      rw [show ann.names = ann.cols.map (fun c => c.1) from rfl, hnil]
      rfl
    rw [hempty] at hEann
    exact absurd hEann (List.not_mem_nil _)
  constructor
  · rw [h2, hmask]
    exact le_trans (filterByMask_nRows_le ann mask) (le_of_eq hnr)
  · rw [h2, hmask]
    unfold DataFrame.rowsL
    rw [filterByMask_nRows_eq ann mask hconsne hcols,
      rowsAux_filterByMask mask ann hcols, hmasklen]
    apply filterMask_eq_filter
    have hbase := status_forall₂ "Email Status"
      (((df.getCol "Email").getD []).map
        (fun e => (some (classifyResponse (oracle e)) : Cell)))
      ann hself (fun c hc => by rw [hsvlen]; exact hWFann c hc)
    rw [hmaskdef, List.forall₂_map_left_iff, ← hsvlen]
    exact hbase.imp (fun v r hvr => by rw [hvr])

/-- Witness for the C2 theorem: two rows, one verified valid and one
invalid; the returned frame is the filtered annotated frame. -/
theorem validator_filter_law_witness :
    (verifyEmails ⟨[("Email", [some "good", some "bad"])]⟩
        (fun e =>
          if e = some "good" then HttpOutcome.response 200 (some [("result", "valid")])
          else HttpOutcome.response 200 (some [("result", "invalid")])) "k").2.nRows
      ≤ DataFrame.nRows ⟨[("Email", [some "good", some "bad"])]⟩
    ∧ (verifyEmails ⟨[("Email", [some "good", some "bad"])]⟩
        (fun e =>
          if e = some "good" then HttpOutcome.response 200 (some [("result", "valid")])
          else HttpOutcome.response 200 (some [("result", "invalid")])) "k").2.rowsL
      = ((verifyEmails ⟨[("Email", [some "good", some "bad"])]⟩
        (fun e =>
          if e = some "good" then HttpOutcome.response 200 (some [("result", "valid")])
          else HttpOutcome.response 200 (some [("result", "invalid")])) "k").1.rowsL).filter
          (fun r => rowGet r "Email Status" == some "valid") :=
  validator_filter_law ⟨[("Email", [some "good", some "bad"])]⟩
    (fun e =>
      if e = some "good" then HttpOutcome.response 200 (some [("result", "valid")])
      else HttpOutcome.response 200 (some [("result", "invalid")])) "k"
    (by decide) (by decide)

/-- Setting a key and reading it back. -/
theorem mget_mset_self (m : Mapping) (t : String) (v : Option String) :
    mget (mset m t v) t = v := by
  induction m with
  | nil => simp [mset, mget]
  | cons e rest ih =>
    by_cases he : e.1 = t
    · simp [mset, mget, he]
    · simp [mset, mget, he, ih]

/-- Setting a key leaves other keys unchanged. -/
theorem mget_mset_ne (m : Mapping) (t t2 : String) (v : Option String) (h : t2 ≠ t) :
    mget (mset m t v) t2 = mget m t2 := by
  induction m with
  | nil =>
    rw [show mset [] t v = [(t, v)] from rfl,
      show mget [(t, v)] t2 = if t = t2 then v else mget [] t2 from rfl,
      if_neg (fun hx => h hx.symm)]
  | cons e rest ih =>
    rw [show mset (e :: rest) t v
        = if e.1 = t then (e.1, v) :: rest else e :: mset rest t v from rfl]
    by_cases he : e.1 = t
    · rw [if_pos he,
        show mget ((e.1, v) :: rest) t2 = if e.1 = t2 then v else mget rest t2 from rfl,
        if_neg (fun hx => h (hx.symm.trans he)),
        show mget (e :: rest) t2 = if e.1 = t2 then e.2 else mget rest t2 from rfl,
        if_neg (fun hx => h (hx.symm.trans he))]
    · rw [if_neg he,
        show mget (e :: mset rest t v) t2
          = if e.1 = t2 then e.2 else mget (mset rest t v) t2 from rfl,
        show mget (e :: rest) t2 = if e.1 = t2 then e.2 else mget rest t2 from rfl,
        ih]

/-- A value read from the mapping is among its stored values. -/
theorem mget_mem_values (m : Mapping) (t : String) (s : String) (h : mget m t = some s) :
    (some s) ∈ m.map (fun e => e.2) := by
  induction m with
  | nil => simp [mget] at h
  | cons e rest ih =>
    by_cases he : e.1 = t
    · rw [show mget (e :: rest) t = if e.1 = t then e.2 else mget rest t from rfl,
        if_pos he] at h
      rw [List.map_cons]
      exact List.mem_cons.mpr (Or.inl h.symm)
    · rw [show mget (e :: rest) t = if e.1 = t then e.2 else mget rest t from rfl,
        if_neg he] at h
      rw [List.map_cons]
      exact List.mem_cons.mpr (Or.inr (ih h))

/-- A bound source column that is neither empty nor the sentinel counts as
used. -/
theorem mem_usedSources (m : Mapping) (t s : String) (h : mget m t = some s)
    (h1 : s ≠ "") (h2 : s ≠ ignoreSentinel) : s ∈ usedSources m := by
  unfold usedSources
  rw [List.mem_filter]
  constructor
  · rw [List.mem_filterMap]
    have hv := mget_mem_values m t s h
    simp only [List.mem_map] at hv
    obtain ⟨e, he, hev⟩ := hv
    exact ⟨e, he, hev⟩
  · simp [h1, h2]

/-- The empty mapping satisfies the uniqueness invariant. -/
theorem mappingInv_nil : MappingInv [] := by
  intro t1 t2 s hne h1 h2
  simp [mget] at h1

/-- Clearing a target field keeps the uniqueness invariant. -/
theorem mappingInv_mset_none (m : Mapping) (t : String) (h : MappingInv m) :
    MappingInv (mset m t none) := by
  intro t1 t2 s hne h1 h2
  by_cases ht1 : t1 = t
  · subst ht1
    rw [mget_mset_self] at h1
    simp at h1
  · rw [mget_mset_ne m t t1 none ht1] at h1
    by_cases ht2 : t2 = t
    · subst ht2
      rw [mget_mset_self] at h2
      simp at h2
    · rw [mget_mset_ne m t t2 none ht2] at h2
      exact h t1 t2 s hne h1 h2

/-- A selectbox assignment keeps the uniqueness invariant, because the
offered options exclude the source columns already used by other target
fields. -/
theorem mappingInv_assignStep (cols : List String) (m : Mapping) (target sel : String)
    (hcols : "" ∉ cols) (h : MappingInv m) :
    MappingInv (assignStep cols m target sel) := by
  unfold assignStep
  split_ifs with hopts hsel
  · exact mappingInv_mset_none m target h
  · have hmem : sel ∈ cols.filter
        (fun c => decide (c ∉ usedSources m) || (mget m target == some c)) := by
      rcases List.mem_cons.mp hopts with heq | hmem
      · exact absurd heq hsel
      · exact hmem
    obtain ⟨hselcols, hpred⟩ := List.mem_filter.mp hmem
    simp only [Bool.or_eq_true, decide_eq_true_eq, beq_iff_eq] at hpred
    have hselne : sel ≠ "" := fun hx => hcols (hx ▸ hselcols)
    intro t1 t2 s hne h1 h2
    by_cases ht1 : t1 = target
    · subst ht1
      rw [mget_mset_self] at h1
      injection h1 with h1
      subst h1
      by_cases ht2 : t1 = t2
      · exact absurd ht2 hne
      · rw [mget_mset_ne m t1 t2 (some sel) (fun hx => hne hx.symm)] at h2
        rcases hpred with hnc | heqc
        · by_cases hsig : sel = ignoreSentinel
          · exact hsig
          · exact absurd (mem_usedSources m t2 sel h2 hselne hsig) hnc
        · exact h t1 t2 sel hne heqc h2
    · by_cases ht2 : t2 = target
      · subst ht2
        rw [mget_mset_self] at h2
        injection h2 with h2
        subst h2
        rw [mget_mset_ne m t2 t1 (some sel) ht1] at h1
        rcases hpred with hnc | heqc
        · by_cases hsig : sel = ignoreSentinel
          · exact hsig
          · exact absurd (mem_usedSources m t1 sel h1 hselne hsig) hnc
        · exact h t1 t2 sel hne h1 heqc
      · rw [mget_mset_ne m target t1 (some sel) ht1] at h1
        rw [mget_mset_ne m target t2 (some sel) ht2] at h2
        exact h t1 t2 s hne h1 h2
  · exact h

/-- C3 (amended): after any sequence of assign and clear operations over
source columns with nonempty names, starting from a mapping satisfying the
uniqueness invariant, no source column other than the ignore sentinel is
bound to two distinct target fields; applying a stored template, by
contrast, replaces the mapping verbatim without re-validation, so the
invariant can be broken by a template that itself contains a duplicate
binding. -/
theorem mapping_invariant_preserved (cols : List String) (ops : List MapOp) (m0 : Mapping)
    (hcols : "" ∉ cols) (hops : noTemplateLoad ops = true) (hm0 : MappingInv m0) :
    MappingInv (applyOps cols ops m0) := by
  induction ops generalizing m0 with
  | nil => exact hm0
  | cons op rest ih =>
    rw [show applyOps cols (op :: rest) m0
        = applyOps cols rest (applyOp cols m0 op) from rfl]
    unfold noTemplateLoad at hops
    rw [List.all_cons, Bool.and_eq_true] at hops
    refine ih (applyOp cols m0 op) hops.2 ?_
    cases op with
    | assign target sel => exact mappingInv_assignStep cols m0 target sel hcols hm0
    | clear target => exact mappingInv_mset_none m0 target hm0
    | loadTemplate tpl =>
      have habs := hops.1
      simp at habs

/-- Witness for the amended C3 theorem: two assignments and a clear,
starting from the empty mapping, keep the invariant. -/
theorem mapping_invariant_preserved_witness :
    MappingInv (applyOps ["Full Name", "Work Email"]
      [MapOp.assign "Email" "Work Email", MapOp.assign "Name" "Full Name",
        MapOp.clear "Name"] []) :=
  mapping_invariant_preserved ["Full Name", "Work Email"]
    [MapOp.assign "Email" "Work Email", MapOp.assign "Name" "Full Name",
      MapOp.clear "Name"] [] (by decide) (by decide) mappingInv_nil

/-- The labels of a successful projection are exactly the target schema,
in schema order. -/
theorem processData_names (df : DataFrame) (m : Mapping) (ts : List String)
    (out : DataFrame) (hnd : ts.Nodup) (h : processData df m ts = .ok out) :
    out.names = ts := by
  have hres := processAux_names df m ts ⟨[]⟩ out h (fun t _ => List.not_mem_nil t) hnd
  simpa using hres

/-- The row list of a frame has as many entries as the frame has rows. -/
theorem rowsAux_length : ∀ (n : Nat) (df : DataFrame), (rowsAux n df).length = n := by
  intro n
  induction n with
  | zero => intro df; rfl
  | succ k ih =>
    intro df
    simp [rowsAux, ih]

/-- C7: every completed pipeline run exports an artifact whose header row
is exactly the target schema in schema order and whose data rows are the
retained records, one line each. -/
theorem export_artifact_shape (df : DataFrame) (m : Mapping) (ts : List String)
    (key : String) (flag : Bool) (fn : String) (pdf : DataFrame) (outname : String)
    (hnd : ts.Nodup) (h : startProcessing df m ts key flag fn = .ok (pdf, outname)) :
    pdf.names = ts
    ∧ (toCsvLines pdf).headD [] = ts
    ∧ (toCsvLines pdf).length = pdf.nRows + 1 := by
  unfold startProcessing at h
  split at h
  · simp at h
  · rename_i processed heq
    split_ifs at h with hcond
    injection h with h
    rw [Prod.mk.injEq] at h
    obtain ⟨h1, h2⟩ := h
    subst h1
    have hnames := processData_names df m ts processed hnd heq
    refine ⟨hnames, ?_, ?_⟩
    · rw [show (toCsvLines processed).headD [] = processed.names from rfl, hnames]
    · simp [toCsvLines, DataFrame.rowsL, rowsAux_length]

/-- Witness for the C7 theorem: a concrete run without verification
exports a header equal to the schema and one line per projected record. -/
theorem export_artifact_shape_witness :
    startProcessing ⟨[("E-mail", [some "a@b"])]⟩ [("Email", some "E-mail")]
      ["Email", "Name"] "" true "leads.csv"
      = Except.ok (⟨[("Email", [some "a@b"]), ("Name", [none])]⟩, "leads_clean.csv")
    ∧ DataFrame.names ⟨[("Email", [some "a@b"]), ("Name", [(none : Cell)])]⟩
      = ["Email", "Name"]
    ∧ (toCsvLines ⟨[("Email", [some "a@b"]), ("Name", [(none : Cell)])]⟩).headD []
      = ["Email", "Name"]
    ∧ (toCsvLines ⟨[("Email", [some "a@b"]), ("Name", [(none : Cell)])]⟩).length
      = DataFrame.nRows ⟨[("Email", [some "a@b"]), ("Name", [(none : Cell)])]⟩ + 1 := by
  refine ⟨rfl, ?_, ?_, ?_⟩
  all_goals
    have hres := export_artifact_shape ⟨[("E-mail", [some "a@b"])]⟩ [("Email", some "E-mail")]
      ["Email", "Name"] "" true "leads.csv"
      ⟨[("Email", [some "a@b"]), ("Name", [none])]⟩ "leads_clean.csv" (by decide) rfl
  · exact hres.1
  · exact hres.2.1
  · exact hres.2.2

/-- C9: the loader strips a leading byte-order mark and auto-detects the
delimiter among comma, tab and semicolon: a BOM-prefixed semicolon file
loads with the correct column count; when no delimiter can be determined
the load fails with the sniffing error wrapped as a File Error, and every
load failure is a File Error carrying a human-readable cause. -/
theorem loader_bom_delimiter :
    (∀ raw : String, sniffDelimiter (stripBom raw.toList) = none →
      loadAndValidateData raw = .error "File Error: Could not determine delimiter")
    ∧ (∀ (raw e : String), loadAndValidateData raw = .error e →
        ∃ cause, e = "File Error: " ++ cause)
    ∧ (loadAndValidateData
        "\uFEFFName;Email;Phone\nAlice;a@x.com;111\nBob;b@y.com;222").map
        DataFrame.names = .ok ["Name", "Email", "Phone"] := by
  refine ⟨?_, ?_, ?_⟩
  · intro raw hs
    unfold loadAndValidateData
    rw [hs]
    rfl
  · intro raw e he
    unfold loadAndValidateData at he
    split at he
    · injection he with he
      exact ⟨"Could not determine delimiter", he.symm⟩
    · split at he
      · simp at he
      · injection he with he
        exact ⟨_, he.symm⟩
  · rfl

/-- Witness for the C9 theorem: a file without any candidate delimiter
fails with the delimiter-sniffing File Error. -/
theorem loader_bom_delimiter_witness :
    loadAndValidateData "hello" = .error "File Error: Could not determine delimiter" :=
  loader_bom_delimiter.1 "hello" (by decide)
